import Mathlib

/-!
# ARP module of the uIP stack (`include/net/uip/uip-arp.h`)

A shallow embedding of the declarations of `uip-arp.h` and of the operations
the header names, followed by theorems about them.

* `uip_eth_hdr`, `arp_entry`, `UIP_ETHTYPE_*`, `uip_arp_ipin` and
  `uip_arp_delete` are defined in the header and are embedded from it.
* `uip_arp_find`, `uip_arp_update` and `uip_arp_out` are only declared in the
  header (`EXTERN` prototypes); their bodies live in a `.c` file that is not
  part of the sources at hand.  They are modelled from the written
  specification of the module and are marked as such.

Machine integers are natural numbers; no operation embedded here performs
arithmetic on an address or on an age, so no wrap-around is involved.
-/

namespace UipArp

/-! ## Types -/

/-- The C type `uint8`. -/
abbrev uint8 := Nat

/-- The C type `uint16`. -/
abbrev uint16 := Nat

/-- The C type `in_addr_t`: an IPv4 address, the value of its four bytes read
in network order. -/
abbrev in_addr_t := Nat

/-- Recognized values of the type bytes in the Ethernet header. -/
def UIP_ETHTYPE_ARP : uint16 := 0x0806

/-- The type code of an IPv4 frame. -/
def UIP_ETHTYPE_IP : uint16 := 0x0800

/-- The type code of an IPv6 frame. -/
def UIP_ETHTYPE_IP6 : uint16 := 0x86dd

/-- The type `struct ether_addr` of `net/ethernet.h`: a hardware address of
exactly six bytes. -/
structure ether_addr where
  ether_addr_octet : List uint8
  six : ether_addr_octet.length = 6
deriving DecidableEq

/-- One entry in the ARP table: `struct arp_entry`. -/
structure arp_entry where
  at_ipaddr : in_addr_t
  at_ethaddr : ether_addr
  at_time : uint8
deriving DecidableEq

/-- The ARP table: a fixed-length sequence of slots.  Its length is the
compile-time capacity (`CONFIG_NET_ARPTAB_SIZE`), which the header does not
fix; it is a parameter here, and a C array has at least one element. -/
abbrev arp_table := List arp_entry

/-! ## Layout of `struct uip_eth_hdr` -/

/-- The C types the members of `struct uip_eth_hdr` are declared with. -/
inductive c_type where
  | uint8 : c_type
  | uint16 : c_type
  | array : c_type → Nat → c_type
deriving DecidableEq

/-- The value of `sizeof` for a type: `uint8` is one byte, `uint16` two, an
array as many times its element as it has elements. -/
def c_type.size : c_type → Nat
  | .uint8 => 1
  | .uint16 => 2
  | .array t n => n * t.size

/-- Alignment of a type: a scalar is aligned to its size, an array to its
element. -/
def c_type.align : c_type → Nat
  | .uint8 => 1
  | .uint16 => 2
  | .array t _ => t.align

/-- A member of a C structure: its name and its type. -/
structure c_field where
  name : String
  type : c_type
deriving DecidableEq

/-- Size in bytes of a member. -/
def c_field.size (f : c_field) : Nat := f.type.size

/-- Alignment of a member. -/
def c_field.align (f : c_field) : Nat := f.type.align

/-- The members of `struct uip_eth_hdr`, in declaration order:
`uint8 dest[6]; uint8 src[6]; uint16 type;`. -/
def uip_eth_hdr : List c_field :=
  [ ⟨"dest", .array .uint8 6⟩, ⟨"src", .array .uint8 6⟩, ⟨"type", .uint16⟩ ]

/-- Round `n` up to the next multiple of `a`. -/
def align_up (n a : Nat) : Nat := (n + a - 1) / a * a

/-- Offsets given by the C layout rule: every member is placed at the first
offset at or after the end of the previous member that is a multiple of its
alignment.  The first argument is the end of the previous member. -/
def field_offsets : Nat → List c_field → List Nat
  | _, [] => []
  | pos, f :: fs => align_up pos f.align :: field_offsets (align_up pos f.align + f.size) fs

/-- End of the last member under the C layout rule. -/
def fields_end : Nat → List c_field → Nat
  | pos, [] => pos
  | pos, f :: fs => fields_end (align_up pos f.align + f.size) fs

/-- Alignment of a structure: the greatest alignment of a member. -/
def struct_align (fs : List c_field) : Nat := (fs.map c_field.align).foldl max 1

/-- The value of `sizeof` for a structure: the end of the last member rounded
up to the alignment of the structure. -/
def sizeof_struct (fs : List c_field) : Nat := align_up (fields_end 0 fs) (struct_align fs)

/-- Length of the link-layer header, `sizeof(struct uip_eth_hdr)`. -/
def UIP_LLH_LEN : Nat := sizeof_struct uip_eth_hdr

/-! ## The cache operations -/

/-- Modelled from the spec: the body of `uip_arp_find` (the header has only
its prototype).  "Linear scan for a nonzero-address entry matching `ip`.  No
match: not found."  The result is the index of the slot the returned pointer
refers to. -/
def uip_arp_find (tab : arp_table) (ipaddr : in_addr_t) : Option Nat :=
  tab.findIdx? (fun e => decide (e.at_ipaddr ≠ 0 ∧ e.at_ipaddr = ipaddr))

/-- The assignment `tabptr->at_ipaddr = 0` through a pointer to slot `i`. -/
def clear_ipaddr (tab : arp_table) (i : Nat) : arp_table :=
  tab.modify (fun e => { e with at_ipaddr := 0 }) i

/-- The macro `uip_arp_delete(ipaddr)`:
`tabptr = uip_arp_find(ipaddr); if (tabptr) tabptr->at_ipaddr = 0;`. -/
def uip_arp_delete (tab : arp_table) (ipaddr : in_addr_t) : arp_table :=
  match uip_arp_find tab ipaddr with
  | some i => clear_ipaddr tab i
  | none => tab

/-- Greatest age held by a slot of the table. -/
def max_age (tab : arp_table) : uint8 := (tab.map arp_entry.at_time).foldr max 0

/-- Modelled from the spec: the victim policy of `update`.  "Prefer any unused
(zero-address) slot; if none, evict the entry with the greatest age (oldest),
ties broken by lowest slot index."  Among unused slots the scan takes the
first. -/
def victim_slot (tab : arp_table) : Nat :=
  match tab.findIdx? (fun e => decide (e.at_ipaddr = 0)) with
  | some i => i
  | none => tab.findIdx (fun e => decide (e.at_time = max_age tab))

/-- Modelled from the spec: the body of `uip_arp_update` (the header has only
its prototype).  "If an entry for `ip` exists, refresh its hardware address
and reset age.  Otherwise choose a victim slot using the policy; overwrite it
with the new mapping, age zero." -/
def uip_arp_update (tab : arp_table) (ipaddr : in_addr_t) (ethaddr : ether_addr) : arp_table :=
  match uip_arp_find tab ipaddr with
  | some i => tab.modify (fun e => { e with at_ethaddr := ethaddr, at_time := 0 }) i
  | none => tab.set (victim_slot tab) { at_ipaddr := ipaddr, at_ethaddr := ethaddr, at_time := 0 }

/-- The entry a pointer returned by `uip_arp_find` refers to. -/
def arp_lookup (tab : arp_table) (ipaddr : in_addr_t) : Option arp_entry :=
  (uip_arp_find tab ipaddr).bind (fun i => tab[i]?)

/-! ## The frame buffer and the protocol-facing operations -/

/-- Modelled from the spec: the part of `struct uip_driver_s` (declared in a
header that is not at hand) the ARP module uses: this node's hardware and
protocol address, the shared frame buffer and its length field. -/
structure uip_driver_s where
  d_mac : ether_addr
  d_ipaddr : in_addr_t
  d_buf : List uint8
  d_len : Nat
deriving DecidableEq

/-- The part of the buffer the length field declares valid. -/
def uip_driver_s.frame (dev : uip_driver_s) : List uint8 := dev.d_buf.take dev.d_len

/-- The two bytes of a 16-bit value in network byte order. -/
def htons_bytes (v : uint16) : List uint8 := [v / 256 % 256, v % 256]

/-- The four bytes of an IPv4 address in network byte order. -/
def ipaddr_bytes (a : in_addr_t) : List uint8 :=
  [a / 2 ^ 24 % 256, a / 2 ^ 16 % 256, a / 2 ^ 8 % 256, a % 256]

/-- The bytes of a `struct uip_eth_hdr` with the given members, in member
order: `dest`, `src`, `type` (network byte order). -/
def eth_hdr_bytes (dest src : List uint8) (type : uint16) : List uint8 :=
  dest ++ src ++ htons_bytes type

/-- The broadcast hardware address. -/
def broadcast_ethaddr : List uint8 := List.replicate 6 0xff

/-- Modelled from the spec: the resolution request of the outbound gate.
"Sender = this node's protocol/hardware address, target protocol address =
the effective address, target hardware address = unspecified, opcode =
request, destination hardware address = broadcast."  The packet follows the
standard layout: hardware type, protocol type, address lengths, opcode,
sender and target addresses. -/
def arp_request_bytes (dev : uip_driver_s) (ipaddr : in_addr_t) : List uint8 :=
  eth_hdr_bytes broadcast_ethaddr dev.d_mac.ether_addr_octet UIP_ETHTYPE_ARP
    ++ htons_bytes 1 ++ htons_bytes UIP_ETHTYPE_IP ++ [6, 4] ++ htons_bytes 1
    ++ dev.d_mac.ether_addr_octet ++ ipaddr_bytes dev.d_ipaddr
    ++ List.replicate 6 0 ++ ipaddr_bytes ipaddr

/-- Modelled from the spec: the body of `uip_arp_out` (the header has only its
prototype), with the effective lookup address supplied by the caller.
"Hit: prepend a link-layer header with destination = cached hardware address,
source = this node's hardware address, type = IPv4; increase length by the
header size.  Miss: overwrite the entire buffer with a resolution request;
set length to the resolution-packet size (plus header)." -/
def uip_arp_out (tab : arp_table) (dev : uip_driver_s) (ipaddr : in_addr_t) : uip_driver_s :=
  match arp_lookup tab ipaddr with
  | some e =>
    { dev with
      d_buf := eth_hdr_bytes e.at_ethaddr.ether_addr_octet dev.d_mac.ether_addr_octet
                 UIP_ETHTYPE_IP ++ dev.d_buf
      d_len := dev.d_len + UIP_LLH_LEN }
  | none =>
    { dev with
      d_buf := arp_request_bytes dev ipaddr
      d_len := (arp_request_bytes dev ipaddr).length }

/-- The state the parameterless macro `uip_arp_ipin()` is expanded in: the ARP
table and the driver structure holding the received frame. -/
structure arp_state where
  g_arptable : arp_table
  dev : uip_driver_s
deriving DecidableEq

/-- The macro `uip_arp_ipin()`.  The header defines it with an empty
replacement list, `#define uip_arp_ipin()`, so the statement `uip_arp_ipin();`
is the empty statement: the state is returned as it was. -/
def uip_arp_ipin (s : arp_state) : arp_state := s

/-- The `src` member of the link-layer header of a frame: bytes 6 to 11. -/
def eth_src (frame : List uint8) : List uint8 := (frame.drop 6).take 6

/-- The `type` member of the link-layer header of a frame: bytes 12 and 13,
read in network byte order. -/
def eth_type (frame : List uint8) : uint16 :=
  ((frame.drop 12).take 2).foldl (fun acc b => acc * 256 + b) 0

/-- The source address of the IPv4 header that follows the 14-byte link-layer
header: bytes 12 to 15 of the IP header, read in network byte order. -/
def ip_srcipaddr (frame : List uint8) : in_addr_t :=
  ((frame.drop (14 + 12)).take 4).foldl (fun acc b => acc * 256 + b) 0

/-! ## Predicates on the table -/

/-- The nonzero addresses held by the table, in slot order. -/
def held_addrs (tab : arp_table) : List in_addr_t :=
  (tab.map arp_entry.at_ipaddr).filter (fun a => decide (a ≠ 0))

/-- The uniqueness invariant: each nonzero protocol address is held by at most
one slot. -/
def unique_addrs (tab : arp_table) : Prop := (held_addrs tab).Nodup

instance (tab : arp_table) : Decidable (unique_addrs tab) := by
  unfold unique_addrs; infer_instance

/-- Number of slots holding the address `ipaddr`. -/
def slots_holding (tab : arp_table) (ipaddr : in_addr_t) : Nat :=
  tab.countP (fun e => decide (e.at_ipaddr = ipaddr))

/-- Every slot of the table is occupied. -/
def table_full (tab : arp_table) : Prop := ∀ e ∈ tab, e.at_ipaddr ≠ 0

instance (tab : arp_table) : Decidable (table_full tab) := by
  unfold table_full; infer_instance

/-! ## Sample values -/

/-- A sample hardware address, `02:00:00:00:00:01`. -/
def hw_one : ether_addr := ⟨[2, 0, 0, 0, 0, 1], rfl⟩

/-- A sample hardware address, `02:00:00:00:00:02`. -/
def hw_two : ether_addr := ⟨[2, 0, 0, 0, 0, 2], rfl⟩

/-- A sample full table of three slots holding 10.0.0.1, 10.0.0.2 and
10.0.0.3 at ages 3, 7 and 7. -/
def sample_table : arp_table :=
  [ ⟨0x0a000001, hw_one, 3⟩, ⟨0x0a000002, hw_two, 7⟩, ⟨0x0a000003, hw_one, 7⟩ ]

/-- A sample table of three slots of which two are unused and one holds
10.0.0.2. -/
def sparse_table : arp_table :=
  [ ⟨0, hw_one, 0⟩, ⟨0x0a000002, hw_two, 4⟩, ⟨0, hw_one, 0⟩ ]

/-- A sample received frame: an IPv4-tagged frame sent by `hw_one` to `hw_two`
whose 20-byte IP header carries the sender address 10.0.0.1 and the
destination address 10.0.0.2. -/
def sample_ip_frame : List uint8 :=
  eth_hdr_bytes hw_two.ether_addr_octet hw_one.ether_addr_octet UIP_ETHTYPE_IP
    ++ [0x45, 0, 0, 20, 0, 0, 0, 0, 64, 6, 0, 0] ++ ipaddr_bytes 0x0a000001
    ++ ipaddr_bytes 0x0a000002

/-- A sample state: a table of two unused slots and the driver of the node
10.0.0.2 holding `sample_ip_frame` in its buffer. -/
def sample_state : arp_state :=
  { g_arptable := [ ⟨0, hw_one, 0⟩, ⟨0, hw_one, 0⟩ ]
    dev := { d_mac := hw_two, d_ipaddr := 0x0a000002, d_buf := sample_ip_frame, d_len := 34 } }

/-- A sample driver holding a five-byte buffer of which three bytes are the
outbound packet. -/
def sample_dev : uip_driver_s :=
  { d_mac := hw_two, d_ipaddr := 0x0a000002, d_buf := [1, 2, 3, 4, 5], d_len := 3 }

/-! ## Lemmas on the scan and on ages -/

/-- The test applied by the scan of `uip_arp_find`. -/
theorem find_eq_some_iff {tab : arp_table} {ip : in_addr_t} {i : Nat} :
    uip_arp_find tab ip = some i ↔
      ∃ h : i < tab.length, (tab[i].at_ipaddr ≠ 0 ∧ tab[i].at_ipaddr = ip) ∧
        ∀ j (hj : j < i), ¬ (tab[j].at_ipaddr ≠ 0 ∧ tab[j].at_ipaddr = ip) := by
  unfold uip_arp_find
  rw [List.findIdx?_eq_some_iff_getElem]
  simp

theorem find_eq_none_iff {tab : arp_table} {ip : in_addr_t} :
    uip_arp_find tab ip = none ↔ ∀ e ∈ tab, ¬ (e.at_ipaddr ≠ 0 ∧ e.at_ipaddr = ip) := by
  unfold uip_arp_find
  rw [List.findIdx?_eq_none_iff]
  simp

theorem find_zero (tab : arp_table) : uip_arp_find tab 0 = none := by
  rw [find_eq_none_iff]
  intro e _ h
  exact h.1 h.2

theorem find_modify_of_ipaddr {f : arp_entry → arp_entry}
    (hf : ∀ e, (f e).at_ipaddr = e.at_ipaddr) (tab : arp_table) (i : Nat) (ip : in_addr_t) :
    uip_arp_find (tab.modify f i) ip = uip_arp_find tab ip := by
  unfold uip_arp_find
  induction tab generalizing i with
  | nil => simp
  | cons e es ih =>
    cases i with
    | zero => simp [List.findIdx?_cons, hf]
    | succ k =>
      simp only [List.modify_succ_cons, List.findIdx?_cons, List.findIdx?_succ, Nat.zero_add]
      rw [ih]

theorem max_age_ge (tab : arp_table) : ∀ e ∈ tab, e.at_time ≤ max_age tab := by
  induction tab with
  | nil => simp
  | cons a as ih =>
    intro e he
    simp only [max_age, List.map_cons, List.foldr_cons] at ih ⊢
    rcases List.mem_cons.mp he with rfl | h
    · exact le_max_left _ _
    · exact le_trans (ih e h) (le_max_right _ _)

theorem max_age_mem (tab : arp_table) (h : tab ≠ []) : ∃ e ∈ tab, e.at_time = max_age tab := by
  induction tab with
  | nil => exact absurd rfl h
  | cons a as ih =>
    by_cases has : as = []
    · subst has
      exact ⟨a, by simp, by simp [max_age]⟩
    · obtain ⟨e, he, hm⟩ := ih has
      by_cases hle : max_age as ≤ a.at_time
      · exact ⟨a, by simp, by
          simp only [max_age, List.map_cons, List.foldr_cons] at hle ⊢
          exact (max_eq_left hle).symm⟩
      · refine ⟨e, List.mem_cons_of_mem _ he, ?_⟩
        simp only [max_age, List.map_cons, List.foldr_cons] at hle hm ⊢
        rw [hm]
        exact (max_eq_right (le_of_not_le hle)).symm

theorem victim_slot_lt (tab : arp_table) (h : tab ≠ []) : victim_slot tab < tab.length := by
  unfold victim_slot
  split
  · next i hi =>
    rw [List.findIdx?_eq_some_iff_getElem] at hi
    exact hi.1
  · obtain ⟨e, he, hm⟩ := max_age_mem tab h
    exact List.findIdx_lt_length_of_exists ⟨e, he, by simpa using hm⟩

theorem victim_slot_of_full (tab : arp_table) (hfull : table_full tab) :
    victim_slot tab = tab.findIdx (fun e => decide (e.at_time = max_age tab)) := by
  unfold victim_slot
  have : tab.findIdx? (fun e => decide (e.at_ipaddr = 0)) = none := by
    rw [List.findIdx?_eq_none_iff]
    intro e he
    simpa using hfull e he
  rw [this]

theorem find_set_new (tab : arp_table) (ip : in_addr_t) (hw : ether_addr) (v : Nat)
    (hv : v < tab.length) (hip : ip ≠ 0) (hnone : uip_arp_find tab ip = none) :
    uip_arp_find (tab.set v { at_ipaddr := ip, at_ethaddr := hw, at_time := 0 }) ip = some v := by
  rw [find_eq_some_iff]
  refine ⟨by simpa using hv, ?_, ?_⟩
  · simp [hip]
  · intro j hj
    have hjl : j < tab.length := lt_trans hj hv
    rw [List.getElem_set_ne (Nat.ne_of_gt hj)]
    exact (find_eq_none_iff.mp hnone) _ (List.getElem_mem hjl)

/-! ## Lemmas on `uip_arp_delete` -/

theorem delete_of_find_none {tab : arp_table} {ip : in_addr_t}
    (h : uip_arp_find tab ip = none) : uip_arp_delete tab ip = tab := by
  unfold uip_arp_delete
  rw [h]

theorem delete_of_find_some {tab : arp_table} {ip : in_addr_t} {i : Nat}
    (h : uip_arp_find tab ip = some i) : uip_arp_delete tab ip = clear_ipaddr tab i := by
  unfold uip_arp_delete
  rw [h]

theorem clear_ipaddr_length (tab : arp_table) (i : Nat) :
    (clear_ipaddr tab i).length = tab.length := by
  simp [clear_ipaddr]

theorem delete_length (tab : arp_table) (ip : in_addr_t) :
    (uip_arp_delete tab ip).length = tab.length := by
  unfold uip_arp_delete
  split
  · exact clear_ipaddr_length _ _
  · rfl

theorem find_cons (e : arp_entry) (es : arp_table) (ip : in_addr_t) :
    uip_arp_find (e :: es) ip =
      if e.at_ipaddr ≠ 0 ∧ e.at_ipaddr = ip then some 0
      else (uip_arp_find es ip).map (fun i => i + 1) := by
  unfold uip_arp_find
  by_cases hp : e.at_ipaddr ≠ 0 ∧ e.at_ipaddr = ip
  · simp [List.findIdx?_cons, hp]
  · simp only [List.findIdx?_cons, hp, decide_False, Bool.false_eq_true, if_false,
      List.findIdx?_succ, Nat.zero_add]

theorem delete_cons (e : arp_entry) (es : arp_table) (ip : in_addr_t) :
    uip_arp_delete (e :: es) ip =
      if e.at_ipaddr ≠ 0 ∧ e.at_ipaddr = ip then { e with at_ipaddr := 0 } :: es
      else e :: uip_arp_delete es ip := by
  unfold uip_arp_delete
  rw [find_cons]
  by_cases hp : e.at_ipaddr ≠ 0 ∧ e.at_ipaddr = ip
  · rw [if_pos hp, if_pos hp]
    simp [clear_ipaddr]
  · rw [if_neg hp, if_neg hp]
    cases uip_arp_find es ip <;> simp [clear_ipaddr]

theorem find_delete_of_le_one (tab : arp_table) (ip : in_addr_t)
    (h : slots_holding tab ip ≤ 1) : uip_arp_find (uip_arp_delete tab ip) ip = none := by
  induction tab with
  | nil => rfl
  | cons e es ih =>
    rw [delete_cons]
    by_cases hp : e.at_ipaddr ≠ 0 ∧ e.at_ipaddr = ip
    · rw [if_pos hp, find_cons]
      have hes : slots_holding es ip = 0 := by
        simp only [slots_holding, List.countP_cons, hp.2, decide_True, if_true] at h ⊢
        omega
      have hnone : uip_arp_find es ip = none := by
        rw [find_eq_none_iff]
        intro x hx hpx
        have : 0 < slots_holding es ip := List.countP_pos_iff.mpr ⟨x, hx, by simpa using hpx.2⟩
        omega
      simp [hnone]
    · rw [if_neg hp, find_cons, if_neg hp]
      have hes : slots_holding es ip ≤ 1 := by
        simp only [slots_holding, List.countP_cons] at h ⊢
        omega
      rw [ih hes]
      rfl

theorem slots_holding_eq_count (tab : arp_table) (ip : in_addr_t) (hip : ip ≠ 0) :
    slots_holding tab ip = (held_addrs tab).count ip := by
  unfold slots_holding held_addrs
  rw [List.count_filter (by simpa using hip), List.count, List.countP_map]
  apply List.countP_congr
  intro e _
  simp

theorem slots_holding_le_one_of_unique (tab : arp_table) (ip : in_addr_t)
    (h : unique_addrs tab) (hip : ip ≠ 0) : slots_holding tab ip ≤ 1 := by
  rw [slots_holding_eq_count tab ip hip]
  exact List.nodup_iff_count_le_one.mp h ip

theorem delete_delete_of_unique (tab : arp_table) (ip : in_addr_t) (h : unique_addrs tab) :
    uip_arp_delete (uip_arp_delete tab ip) ip = uip_arp_delete tab ip := by
  by_cases hip : ip = 0
  · subst hip
    exact delete_of_find_none (find_zero _)
  · exact delete_of_find_none
      (find_delete_of_le_one tab ip (slots_holding_le_one_of_unique tab ip h hip))

theorem held_addrs_clear_sublist (tab : arp_table) (i : Nat) :
    (held_addrs (clear_ipaddr tab i)).Sublist (held_addrs tab) := by
  unfold held_addrs clear_ipaddr
  induction tab generalizing i with
  | nil => simp
  | cons e es ih =>
    cases i with
    | zero =>
      simp only [List.modify_zero_cons, List.map_cons]
      rw [List.filter_cons_of_neg (by simp)]
      exact List.Sublist.filter _ (List.sublist_cons_self _ _)
    | succ k =>
      simp only [List.modify_succ_cons, List.map_cons, List.filter_cons]
      split
      · exact List.Sublist.cons₂ _ (ih k)
      · exact ih k

theorem unique_addrs_delete (tab : arp_table) (ip : in_addr_t) (h : unique_addrs tab) :
    unique_addrs (uip_arp_delete tab ip) := by
  unfold uip_arp_delete
  split
  · exact List.Nodup.sublist (held_addrs_clear_sublist tab _) h
  · exact h

theorem delete_some_slots {tab : arp_table} {ip : in_addr_t} {i : Nat}
    (h : uip_arp_find tab ip = some i) :
    ∃ e, tab[i]? = some e ∧ e.at_ipaddr = ip ∧
      (uip_arp_delete tab ip)[i]? = some { e with at_ipaddr := 0 } ∧
      ∀ j, j ≠ i → (uip_arp_delete tab ip)[j]? = tab[j]? := by
  obtain ⟨hi, ⟨_, heq⟩, _⟩ := find_eq_some_iff.mp h
  rw [delete_of_find_some h]
  refine ⟨tab[i], by simp [hi], heq, ?_, ?_⟩
  · simp [clear_ipaddr, hi]
  · intro j hj
    simp [clear_ipaddr, List.getElem?_modify_ne _ _ (Ne.symm hj)]

/-! ## Lemmas on the frame -/

theorem UIP_LLH_LEN_eq : UIP_LLH_LEN = 14 := by decide

theorem eth_hdr_bytes_length (dest src : ether_addr) (type : uint16) :
    (eth_hdr_bytes dest.ether_addr_octet src.ether_addr_octet type).length = 14 := by
  simp [eth_hdr_bytes, htons_bytes, dest.six, src.six]

theorem frame_parts (a b t p : List uint8) (ha : a.length = 6) (hb : b.length = 6)
    (ht : t.length = 2) :
    (a ++ (b ++ (t ++ p))).take 6 = a ∧
    ((a ++ (b ++ (t ++ p))).drop 6).take 6 = b ∧
    ((a ++ (b ++ (t ++ p))).drop 12).take 2 = t ∧
    (a ++ (b ++ (t ++ p))).drop 14 = p := by
  have h12 : (a ++ b).length = 12 := by simp [ha, hb]
  have h14 : (a ++ b ++ t).length = 14 := by simp [ha, hb, ht]
  refine ⟨List.take_left' ha, ?_, ?_, ?_⟩
  · rw [List.drop_left' ha, List.take_left' hb]
  · rw [← List.append_assoc, List.drop_left' h12, List.take_left' ht]
  · rw [← List.append_assoc, ← List.append_assoc, List.drop_left' h14]

theorem unused_stays_unused (tab : arp_table) (ip : in_addr_t) (j : Nat) (e : arp_entry)
    (hj : tab[j]? = some e) (h0 : e.at_ipaddr = 0) :
    ∃ r, (uip_arp_delete tab ip)[j]? = some r ∧ r.at_ipaddr = 0 := by
  cases hfind : uip_arp_find tab ip with
  | none => exact ⟨e, by rw [delete_of_find_none hfind]; exact hj, h0⟩
  | some i =>
    obtain ⟨x, _, _, hi, hne⟩ := delete_some_slots hfind
    by_cases hji : j = i
    · subst hji
      exact ⟨_, hi, rfl⟩
    · exact ⟨e, by rw [hne j hji]; exact hj, h0⟩

/-! ## The claims -/

/-- C1. Insert-then-find: for every table of at least one slot, every nonzero
protocol address `ip` and every 6-byte hardware address `hw`, after
`update(ip, hw)` the operation `find(ip)` returns a slot (it is not
"not found"), and the entry in that slot holds `ip`, the hardware address `hw`
and age 0. -/
theorem update_then_find (tab : arp_table) (ip : in_addr_t) (hw : ether_addr)
    (hcap : tab ≠ []) (hip : ip ≠ 0) :
    ∃ i e, uip_arp_find (uip_arp_update tab ip hw) ip = some i ∧
      (uip_arp_update tab ip hw)[i]? = some e ∧
      e.at_ipaddr = ip ∧ e.at_ethaddr = hw ∧ e.at_time = 0 := by
  unfold uip_arp_update
  cases hfind : uip_arp_find tab ip with
  | some i =>
    obtain ⟨hi, ⟨_, heq⟩, _⟩ := find_eq_some_iff.mp hfind
    refine ⟨i, { tab[i] with at_ethaddr := hw, at_time := 0 }, ?_, ?_, heq, rfl, rfl⟩
    · exact (find_modify_of_ipaddr (f := fun e => { e with at_ethaddr := hw, at_time := 0 })
        (fun _ => rfl) tab i ip).trans hfind
    · simp [List.getElem?_modify, hi]
  | none =>
    have hv := victim_slot_lt tab hcap
    refine ⟨victim_slot tab, { at_ipaddr := ip, at_ethaddr := hw, at_time := 0 },
      find_set_new tab ip hw _ hv hip hfind, ?_, rfl, rfl, rfl⟩
    simp [hv]

/-- C1 at a concrete input: inserting 10.0.0.9 into the full sample table. -/
theorem update_then_find_witness :
    sample_table ≠ [] ∧ (0x0a000009 : in_addr_t) ≠ 0 ∧
    ∃ i e, uip_arp_find (uip_arp_update sample_table 0x0a000009 hw_two) 0x0a000009 = some i ∧
      (uip_arp_update sample_table 0x0a000009 hw_two)[i]? = some e ∧
      e.at_ipaddr = 0x0a000009 ∧ e.at_ethaddr = hw_two ∧ e.at_time = 0 :=
  ⟨by decide, by decide, update_then_find sample_table 0x0a000009 hw_two (by decide) (by decide)⟩

/-- C2. Outbound hit: when `find(dest)` returns an entry `e` and the buffer
holds an outbound IP packet of `d_len` bytes, the outbound gate leaves a frame
of `d_len + 14` bytes whose first 6 bytes are the hardware address of `e`,
whose next 6 bytes are this node's hardware address, whose type tag (bytes 12
and 13) is IPv4, `0x0800`, and whose bytes after the 14-byte header are the
original packet. -/
theorem out_hit_frame (tab : arp_table) (dev : uip_driver_s) (ip : in_addr_t) (e : arp_entry)
    (hhit : arp_lookup tab ip = some e) (hlen : dev.d_len ≤ dev.d_buf.length) :
    (uip_arp_out tab dev ip).d_len = dev.d_len + 14 ∧
    (uip_arp_out tab dev ip).frame.length = dev.d_len + 14 ∧
    (uip_arp_out tab dev ip).frame.take 6 = e.at_ethaddr.ether_addr_octet ∧
    ((uip_arp_out tab dev ip).frame.drop 6).take 6 = dev.d_mac.ether_addr_octet ∧
    ((uip_arp_out tab dev ip).frame.drop 12).take 2 = [0x08, 0x00] ∧
    eth_type (uip_arp_out tab dev ip).frame = UIP_ETHTYPE_IP ∧
    (uip_arp_out tab dev ip).frame.drop 14 = dev.frame := by
  have hout : uip_arp_out tab dev ip =
      { dev with
        d_buf := eth_hdr_bytes e.at_ethaddr.ether_addr_octet dev.d_mac.ether_addr_octet
                   UIP_ETHTYPE_IP ++ dev.d_buf
        d_len := dev.d_len + UIP_LLH_LEN } := by
    unfold uip_arp_out
    rw [hhit]
  have hframe : (uip_arp_out tab dev ip).frame =
      e.at_ethaddr.ether_addr_octet ++
        (dev.d_mac.ether_addr_octet ++ ([0x08, 0x00] ++ dev.frame)) := by
    rw [hout]
    simp only [uip_driver_s.frame, UIP_LLH_LEN_eq]
    rw [Nat.add_comm, ← eth_hdr_bytes_length e.at_ethaddr dev.d_mac UIP_ETHTYPE_IP,
      List.take_append]
    simp [eth_hdr_bytes, htons_bytes, UIP_ETHTYPE_IP]
  have h6 := e.at_ethaddr.six
  have h6m := dev.d_mac.six
  obtain ⟨p1, p2, p3, p4⟩ := frame_parts e.at_ethaddr.ether_addr_octet
    dev.d_mac.ether_addr_octet [0x08, 0x00] dev.frame h6 h6m rfl
  rw [← hframe] at p1 p2 p3 p4
  refine ⟨?_, ?_, p1, p2, p3, ?_, p4⟩
  · rw [hout, UIP_LLH_LEN_eq]
  · rw [hframe]
    simp [uip_driver_s.frame, h6, h6m, hlen]
    omega
  · unfold eth_type
    rw [p3]
    rfl

/-- C2 at a concrete input: the sample driver sends to 10.0.0.1, which the
sample table maps to `hw_one`. -/
theorem out_hit_frame_witness :
    arp_lookup sample_table 0x0a000001 = some ⟨0x0a000001, hw_one, 3⟩ ∧
    sample_dev.d_len ≤ sample_dev.d_buf.length ∧
    ((uip_arp_out sample_table sample_dev 0x0a000001).d_len = sample_dev.d_len + 14 ∧
      (uip_arp_out sample_table sample_dev 0x0a000001).frame.length = sample_dev.d_len + 14 ∧
      (uip_arp_out sample_table sample_dev 0x0a000001).frame.take 6 =
        hw_one.ether_addr_octet ∧
      ((uip_arp_out sample_table sample_dev 0x0a000001).frame.drop 6).take 6 =
        sample_dev.d_mac.ether_addr_octet ∧
      ((uip_arp_out sample_table sample_dev 0x0a000001).frame.drop 12).take 2 = [0x08, 0x00] ∧
      eth_type (uip_arp_out sample_table sample_dev 0x0a000001).frame = UIP_ETHTYPE_IP ∧
      (uip_arp_out sample_table sample_dev 0x0a000001).frame.drop 14 = sample_dev.frame) ∧
    (uip_arp_out sample_table sample_dev 0x0a000001).frame =
      [2, 0, 0, 0, 0, 1, 2, 0, 0, 0, 0, 2, 8, 0, 1, 2, 3] :=
  ⟨by decide, by decide,
    out_hit_frame sample_table sample_dev 0x0a000001 ⟨0x0a000001, hw_one, 3⟩
      (by decide) (by decide),
    by decide⟩

/-- C3. Eviction under a full table: when the table has at least one slot,
every slot is occupied and no slot holds `ip`, `update(ip, hw)` overwrites
exactly the slot `v` of greatest age (no slot is older, and every slot before
`v` is strictly younger, so `v` is the lowest index among the oldest) with
`(ip, hw, age 0)` and leaves every other slot and the number of slots
unchanged. -/
theorem update_evicts_oldest (tab : arp_table) (ip : in_addr_t) (hw : ether_addr)
    (hcap : tab ≠ []) (hfull : table_full tab) (habsent : slots_holding tab ip = 0) :
    ∃ v, ∃ hv : v < tab.length,
      (∀ j (hj : j < tab.length), tab[j].at_time ≤ tab[v].at_time) ∧
      (∀ j (hj : j < v), tab[j].at_time < tab[v].at_time) ∧
      uip_arp_update tab ip hw =
        tab.set v { at_ipaddr := ip, at_ethaddr := hw, at_time := 0 } ∧
      (uip_arp_update tab ip hw)[v]? =
        some { at_ipaddr := ip, at_ethaddr := hw, at_time := 0 } ∧
      (∀ j, j ≠ v → (uip_arp_update tab ip hw)[j]? = tab[j]?) ∧
      (uip_arp_update tab ip hw).length = tab.length := by
  have hv := victim_slot_lt tab hcap
  have hvs := victim_slot_of_full tab hfull
  have hnone : uip_arp_find tab ip = none := by
    rw [find_eq_none_iff]
    intro e he h
    have : 0 < slots_holding tab ip :=
      List.countP_pos_iff.mpr ⟨e, he, by simpa using h.2⟩
    omega
  have hupd : uip_arp_update tab ip hw =
      tab.set (victim_slot tab) { at_ipaddr := ip, at_ethaddr := hw, at_time := 0 } := by
    unfold uip_arp_update
    rw [hnone]
  have hmax : tab[victim_slot tab].at_time = max_age tab := by
    have hw : tab.findIdx (fun e => decide (e.at_time = max_age tab)) < tab.length := hvs ▸ hv
    have := List.findIdx_getElem (w := hw)
    simp only [decide_eq_true_eq] at this
    simp only [hvs]
    exact this
  refine ⟨victim_slot tab, hv, ?_, ?_, hupd, ?_, ?_, ?_⟩
  · intro j hj
    rw [hmax]
    exact max_age_ge tab _ (List.getElem_mem hj)
  · intro j hj
    have hj2 : j < tab.findIdx (fun e => decide (e.at_time = max_age tab)) := hvs ▸ hj
    have hne := List.not_of_lt_findIdx hj2
    have hjl : j < tab.length := lt_trans hj hv
    rw [hmax]
    exact lt_of_le_of_ne (max_age_ge tab _ (List.getElem_mem hjl)) (by simpa using hne)
  · rw [hupd]; simp [hv]
  · intro j hj
    rw [hupd, List.getElem?_set_ne (Ne.symm hj)]
  · rw [hupd]; simp

/-- C3 at a concrete input: the sample table is full, its slots 1 and 2 share
the greatest age 7, and inserting 10.0.0.9 overwrites slot 1. -/
theorem update_evicts_oldest_witness :
    sample_table ≠ [] ∧ table_full sample_table ∧ slots_holding sample_table 0x0a000009 = 0 ∧
    (∃ v, ∃ hv : v < sample_table.length,
      (∀ j (hj : j < sample_table.length), sample_table[j].at_time ≤ sample_table[v].at_time) ∧
      (∀ j (hj : j < v), sample_table[j].at_time < sample_table[v].at_time) ∧
      uip_arp_update sample_table 0x0a000009 hw_two =
        sample_table.set v { at_ipaddr := 0x0a000009, at_ethaddr := hw_two, at_time := 0 } ∧
      (uip_arp_update sample_table 0x0a000009 hw_two)[v]? =
        some { at_ipaddr := 0x0a000009, at_ethaddr := hw_two, at_time := 0 } ∧
      (∀ j, j ≠ v → (uip_arp_update sample_table 0x0a000009 hw_two)[j]? = sample_table[j]?) ∧
      (uip_arp_update sample_table 0x0a000009 hw_two).length = sample_table.length) ∧
    uip_arp_update sample_table 0x0a000009 hw_two =
      [ ⟨0x0a000001, hw_one, 3⟩, ⟨0x0a000009, hw_two, 0⟩, ⟨0x0a000003, hw_one, 7⟩ ] :=
  ⟨by decide, by decide, by decide,
    update_evicts_oldest sample_table 0x0a000009 hw_two (by decide) (by decide) (by decide),
    by decide⟩

/-- C4, evaluated on the code.  The sample state holds an IPv4-tagged frame
whose link-layer source field is `hw_one` and whose IP header carries the
nonzero sender address 10.0.0.1, and its table has two unused slots.  The
macro `uip_arp_ipin()` has an empty replacement list, so after it the state is
what it was and `find(10.0.0.1)` still reports not-found: the sender is not
learned. -/
theorem uip_arp_ipin_learns_nothing :
    eth_type sample_state.dev.frame = UIP_ETHTYPE_IP ∧
    eth_src sample_state.dev.frame = hw_one.ether_addr_octet ∧
    ip_srcipaddr sample_state.dev.frame = 0x0a000001 ∧
    (0x0a000001 : in_addr_t) ≠ 0 ∧
    uip_arp_ipin sample_state = sample_state ∧
    uip_arp_find (uip_arp_ipin sample_state).g_arptable 0x0a000001 = none := by
  decide

/-- C5. Delete removes the mapping: when at most one slot holds the address
`ip`, after `delete(ip)` the operation `find(ip)` reports not-found.  (For the
all-zero address `find` reports not-found in every table.) -/
theorem delete_then_find (tab : arp_table) (ip : in_addr_t)
    (h : slots_holding tab ip ≤ 1) : uip_arp_find (uip_arp_delete tab ip) ip = none :=
  find_delete_of_le_one tab ip h

/-- C5 at a concrete input: deleting 10.0.0.2 from the sample table, which
holds it in slot 1. -/
theorem delete_then_find_witness :
    slots_holding sample_table 0x0a000002 ≤ 1 ∧
    uip_arp_find sample_table 0x0a000002 = some 1 ∧
    uip_arp_find (uip_arp_delete sample_table 0x0a000002) 0x0a000002 = none :=
  ⟨by decide, by decide, delete_then_find sample_table 0x0a000002 (by decide)⟩

/-- C6. Delete of an absent mapping is a no-op: for every table and every
address `ip`, the all-zero address included, for which `find(ip)` reports
not-found, the table after `delete(ip)` equals the table before. -/
theorem delete_absent_noop (tab : arp_table) (ip : in_addr_t)
    (h : uip_arp_find tab ip = none) : uip_arp_delete tab ip = tab :=
  delete_of_find_none h

/-- C6 at a concrete input: 10.0.0.9 is not in the sample table. -/
theorem delete_absent_noop_witness :
    uip_arp_find sample_table 0x0a000009 = none ∧
    uip_arp_delete sample_table 0x0a000009 = sample_table :=
  ⟨by decide, delete_absent_noop sample_table 0x0a000009 (by decide)⟩

/-- C7. Delete is idempotent: for every cache state, that is every table
satisfying the uniqueness invariant the module maintains (each nonzero
protocol address is held by at most one slot), and every protocol address
`ip`, the all-zero address included, the table after `delete(ip)` followed by
`delete(ip)` equals the table after a single `delete(ip)`. -/
theorem delete_idempotent (tab : arp_table) (ip : in_addr_t) (h : unique_addrs tab) :
    uip_arp_delete (uip_arp_delete tab ip) ip = uip_arp_delete tab ip :=
  delete_delete_of_unique tab ip h

/-- C7 at a concrete input: deleting 10.0.0.2 twice from a table that holds it
in slot 1 between two unused slots; the first delete changes the table. -/
theorem delete_idempotent_witness :
    unique_addrs sparse_table ∧
    uip_arp_delete sparse_table 0x0a000002 =
      [ ⟨0, hw_one, 0⟩, ⟨0, hw_two, 4⟩, ⟨0, hw_one, 0⟩ ] ∧
    uip_arp_delete (uip_arp_delete sparse_table 0x0a000002) 0x0a000002 =
      uip_arp_delete sparse_table 0x0a000002 :=
  ⟨by decide, by decide, delete_idempotent sparse_table 0x0a000002 (by decide)⟩

/-- C8. The link-layer header is exactly 14 bytes: under the C layout rule the
members `dest`, `src` and `type` of `struct uip_eth_hdr` have sizes 6, 6 and 2
and start at offsets 0, 6 and 12, every member starts where the previous one
ends (no padding before or between them, offset 12 being a multiple of the
2-byte alignment of `type`), the sizes sum to 14 and `sizeof` is 14 (no padding
after them). -/
theorem uip_eth_hdr_layout :
    uip_eth_hdr.map c_field.name = ["dest", "src", "type"] ∧
    uip_eth_hdr.map c_field.size = [6, 6, 2] ∧
    field_offsets 0 uip_eth_hdr = [0, 6, 12] ∧
    12 % 2 = 0 ∧
    (uip_eth_hdr.map c_field.size).sum = 14 ∧
    fields_end 0 uip_eth_hdr = 14 ∧
    sizeof_struct uip_eth_hdr = 14 ∧
    UIP_LLH_LEN = 14 := by
  refine ⟨rfl, ?_, ?_, ?_, ?_, ?_, ?_, ?_⟩ <;> decide

/-- C9. The uniqueness invariant is preserved by the operations the header
defines: when each nonzero protocol address is held by at most one slot, the
same holds of the table after `delete(ip)`, for every `ip`, and of the table
after the macro `uip_arp_ipin()`. -/
theorem unique_addrs_preserved (s : arp_state) (h : unique_addrs s.g_arptable) :
    (∀ ip, unique_addrs (uip_arp_delete s.g_arptable ip)) ∧
    unique_addrs (uip_arp_ipin s).g_arptable :=
  ⟨fun ip => unique_addrs_delete s.g_arptable ip h, h⟩

/-- C9 at a concrete input: the sample table, whose three addresses are
distinct. -/
theorem unique_addrs_preserved_witness :
    unique_addrs sample_table ∧
    (∀ ip, unique_addrs (uip_arp_delete sample_table ip)) ∧
    unique_addrs (uip_arp_ipin ⟨sample_table, sample_dev⟩).g_arptable :=
  ⟨by decide, unique_addrs_preserved ⟨sample_table, sample_dev⟩ (by decide)⟩

/-- C10. Frame of delete: `delete(ip)` keeps the number of slots; when
`find(ip)` returns slot `i`, slot `i` keeps its hardware address and its age
and only its address becomes 0, and every slot `j ≠ i` is unchanged; when
`find(ip)` reports not-found the table is unchanged; and a slot that was
unused before `delete` is unused after it. -/
theorem delete_frame (tab : arp_table) (ip : in_addr_t) :
    (uip_arp_delete tab ip).length = tab.length ∧
    (∀ i, uip_arp_find tab ip = some i →
      ∃ e, tab[i]? = some e ∧
        (uip_arp_delete tab ip)[i]? =
          some { at_ipaddr := 0, at_ethaddr := e.at_ethaddr, at_time := e.at_time } ∧
        ∀ j, j ≠ i → (uip_arp_delete tab ip)[j]? = tab[j]?) ∧
    (uip_arp_find tab ip = none → uip_arp_delete tab ip = tab) ∧
    (∀ (j : Nat) (e : arp_entry), tab[j]? = some e → e.at_ipaddr = 0 →
      ∃ r, (uip_arp_delete tab ip)[j]? = some r ∧ r.at_ipaddr = 0) := by
  refine ⟨delete_length tab ip, ?_, delete_of_find_none, unused_stays_unused tab ip⟩
  intro i hi
  obtain ⟨e, he, _, hd, hne⟩ := delete_some_slots hi
  exact ⟨e, he, hd, hne⟩

/-- C10 at a concrete input: deleting 10.0.0.2 from the sample table clears
the address of slot 1 and nothing else. -/
theorem delete_frame_witness :
    uip_arp_find sample_table 0x0a000002 = some 1 ∧
    uip_arp_delete sample_table 0x0a000002 =
      [ ⟨0x0a000001, hw_one, 3⟩, ⟨0, hw_two, 7⟩, ⟨0x0a000003, hw_one, 7⟩ ] ∧
    (uip_arp_delete sample_table 0x0a000002).length = sample_table.length :=
  ⟨by decide, by decide, (delete_frame sample_table 0x0a000002).1⟩

end UipArp
